import Mathlib

/-!
# RealtimeSanitizer per-thread context (`compiler-rt/lib/rtsan/rtsan_context.cpp`)

A shallow embedding of the `__rtsan::Context` nesting counters and of the
thread-local registry behind `GetContextForThisThread`, on the pthread code
path and on the Windows code path, followed by the properties established
about them.

The registry is explicit state: the file-level statics, the platform's
thread-local slots and the Context objects in internally allocated storage.
What the platform primitives answer (`pthread_key_create`, `TlsAlloc`, the
allocator) is an input of each call.  Thread exit, and with it the destructor
`InternalFreeWrapper` registered on the pthread path (line 37), is not part
of the model; neither are the diagnostic `printf` calls of the Windows arm
(lines 58, 63, 67, 73), which do not touch the registry.
-/

namespace Rtsan

/-! ## The Context value type (source lines 84-96) -/

/-- Modelled from the spec: the declaration of class `Context` lives in
`rtsan/rtsan_context.h`, which is included by the source file but is not part
of it.  The data model of the spec gives two integer counters, both starting
at 0, each "a plain signed counter" without bounds check; they are taken here
as mathematical integers.  Overflow of a fixed-width counter is outside this
model. -/
structure Context where
  realtime_depth_ : Int
  bypass_depth_ : Int
  deriving DecidableEq, Repr

namespace Context

/-- The constructor `Context::Context() = default` (line 84): both counters
are zero after construction. -/
def new : Context := { realtime_depth_ := 0, bypass_depth_ := 0 }

/-- Line 86: `realtime_depth_++`. -/
def RealtimePush (c : Context) : Context :=
  { c with realtime_depth_ := c.realtime_depth_ + 1 }

/-- Line 88: `realtime_depth_--`. -/
def RealtimePop (c : Context) : Context :=
  { c with realtime_depth_ := c.realtime_depth_ - 1 }

/-- Line 90: `bypass_depth_++`. -/
def BypassPush (c : Context) : Context :=
  { c with bypass_depth_ := c.bypass_depth_ + 1 }

/-- Line 92: `bypass_depth_--`. -/
def BypassPop (c : Context) : Context :=
  { c with bypass_depth_ := c.bypass_depth_ - 1 }

/-- Line 94: `return realtime_depth_ > 0`. -/
def InRealtimeContext (c : Context) : Bool := decide (c.realtime_depth_ > 0)

/-- Line 96: `return bypass_depth_ > 0`. -/
def IsBypassed (c : Context) : Bool := decide (c.bypass_depth_ > 0)

end Context

/-- The four mutating member functions of `Context`, as a call alphabet. -/
inductive Op where
  | RealtimePush
  | RealtimePop
  | BypassPush
  | BypassPop
  deriving DecidableEq, Repr

namespace Op

/-- One member-function call on a Context. -/
def apply : Op → Context → Context
  | RealtimePush, c => c.RealtimePush
  | RealtimePop, c => c.RealtimePop
  | BypassPush, c => c.BypassPush
  | BypassPop, c => c.BypassPop

end Op

/-- A sequence of member-function calls, executed left to right. -/
def runOps : List Op → Context → Context
  | [], c => c
  | o :: os, c => runOps os (o.apply c)

/-! ## The thread-local registry (source lines 28-82, 98-100) -/

/-- Thread identities. -/
abbrev Tid := Nat

/-- Addresses of raw storage; `0` is `nullptr`. -/
abbrev Addr := Nat

/-- Values of `pthread_key_t` (pthread path) and of the `DWORD` TLS index
(Windows path). -/
abbrev Key := Nat

/-- The two arms of `#if ! SANITIZER_WINDOWS` (lines 18, 28, 40). -/
inductive Platform where
  | posix
  | windows
  deriving DecidableEq, Repr

/-- The constant `TLS_OUT_OF_INDEXES` of `windows.h`, the failure value of
`TlsAlloc`: `(DWORD)0xFFFFFFFF`. -/
def TLS_OUT_OF_INDEXES : Key := 4294967295

/-- The ways in which a call ends the process instead of returning: a failed
`CHECK_EQ` / `CHECK_NE` (lines 42, 60) or the internal allocator dying. -/
inductive Fatal where
  | check_failed
  | out_of_memory
  deriving DecidableEq, Repr

/-- What the platform answers during one call of `GetContextForThisThread`,
should the call reach the corresponding primitive. -/
structure Env where
  /-- Return code of `pthread_key_create`; `0` is success. -/
  key_create_rc : Int
  /-- Key written by a successful `pthread_key_create`, or the value returned
  by `TlsAlloc()`. -/
  new_key : Key
  /-- Address produced by the raw allocator below `InternalAlloc`; `0` when it
  has no memory left. -/
  raw_alloc : Addr
  deriving DecidableEq, Repr

/-- Explicit state of the registry: the two file-level statics, the
platform's thread-local slots (one per key and thread, `0` when never set),
the Context objects living in internally allocated storage, and two ghost
counters recording how often the key-creation primitive and the allocator
have been invoked. -/
structure Registry where
  /-- The `pthread_once_t key_once` (line 30): `true` once the init routine
  has run.  Unused on Windows. -/
  key_once : Bool
  /-- The static `context_key` (lines 29, 32), zero at program start. -/
  context_key : Key
  /-- The platform's slot contents, read by `pthread_getspecific` /
  `TlsGetValue` and written by `pthread_setspecific` / `TlsSetValue`. -/
  tls : Key → Tid → Addr
  /-- The Context constructed at an address, if any. -/
  heap : Addr → Option Context
  /-- Ghost: number of `pthread_key_create` / `TlsAlloc` invocations. -/
  key_creations : Nat
  /-- Ghost: number of successful `InternalAlloc` invocations. -/
  allocations : Nat

namespace Registry

/-- The registry at program start. -/
def init : Registry :=
  { key_once := false, context_key := 0, tls := fun _ _ => 0,
    heap := fun _ => none, key_creations := 0, allocations := 0 }

/-- The effect of `pthread_setspecific(k, a)` / `TlsSetValue(k, a)` called by
thread `t`.  The source discards the return value (lines 52, 71). -/
def setSlot (s : Registry) (k : Key) (t : Tid) (a : Addr) : Registry :=
  { s with tls := fun k1 t1 => if k1 = k ∧ t1 = t then a else s.tls k1 t1 }

/-- Placement-new of a Context at `a` (lines 51, 70). -/
def construct (s : Registry) (a : Addr) : Registry :=
  { s with heap := fun x => if x = a then some Context.new else s.heap x }

/-- The slot of thread `t` under the current process-wide key: what
`pthread_getspecific(context_key)` / `TlsGetValue(context_key)` gives `t`. -/
def slot (s : Registry) (t : Tid) : Addr := s.tls s.context_key t

end Registry

/-- The lambda of lines 41-43:
`CHECK_EQ(pthread_key_create(&context_key, InternalFreeWrapper), 0)`. -/
def MakeThreadLocalContextKey (e : Env) (s : Registry) : Except Fatal Registry :=
  if e.key_create_rc = 0 then
    .ok { s with context_key := e.new_key, key_creations := s.key_creations + 1 }
  else
    .error Fatal.check_failed

/-- The call `pthread_once(&key_once, MakeThreadLocalContextKey)` of line 45:
the init routine runs only if no earlier call has run it. -/
def pthread_once (e : Env) (s : Registry) : Except Fatal Registry :=
  if s.key_once then .ok s
  else (MakeThreadLocalContextKey e s).map fun s1 => { s1 with key_once := true }

/-- Lines 57-61 of the Windows arm:
`if (context_key == 0) { context_key = TlsAlloc(); CHECK_NE(context_key, TLS_OUT_OF_INDEXES); }`. -/
def winEnsureKey (e : Env) (s : Registry) : Except Fatal Registry :=
  if s.context_key = 0 then
    if e.new_key = TLS_OUT_OF_INDEXES then .error Fatal.check_failed
    else .ok { s with context_key := e.new_key, key_creations := s.key_creations + 1 }
  else .ok s

/-- Modelled from the spec: `InternalAlloc` belongs to `sanitizer_common`,
which is not among the sources.  The spec describes it as
`allocate(size) -> address`, which "must not return null on success" and
"fatal-aborts the process on failure". -/
def InternalAlloc (e : Env) (s : Registry) : Except Fatal (Addr × Registry) :=
  if e.raw_alloc = 0 then .error Fatal.out_of_memory
  else .ok (e.raw_alloc, { s with allocations := s.allocations + 1 })

/-- Lines 46-55 (pthread) and 64-75 (Windows), which have the same shape: read
the calling thread's slot under `context_key`; if it is null, allocate,
construct a Context and store its address in the slot; return the address. -/
def lookupOrCreate (e : Env) (t : Tid) (s : Registry) : Except Fatal (Addr × Registry) :=
  if s.tls s.context_key t = 0 then
    match InternalAlloc e s with
    | .error f => .error f
    | .ok (a, s1) => .ok (a, (s1.construct a).setSlot s1.context_key t a)
  else .ok (s.tls s.context_key t, s)

/-- The function `GetContextForThisThreadImpl` (lines 39-82), called by thread
`t`.  The result is the address of the Context the returned reference
designates, with the registry after the call, or the fatal condition that
ended the process. -/
def GetContextForThisThreadImpl (p : Platform) (e : Env) (t : Tid) (s : Registry) :
    Except Fatal (Addr × Registry) :=
  match p with
  | .posix =>
    match pthread_once e s with
    | .error f => .error f
    | .ok s1 => lookupOrCreate e t s1
  | .windows =>
    match winEnsureKey e s with
    | .error f => .error f
    | .ok s1 => lookupOrCreate e t s1

/-- The exported `GetContextForThisThread` (lines 98-100). -/
def GetContextForThisThread (p : Platform) (e : Env) (t : Tid) (s : Registry) :
    Except Fatal (Addr × Registry) :=
  GetContextForThisThreadImpl p e t s

/-- A member-function call through a reference to the Context at `a`. -/
def callMethod (a : Addr) (o : Op) (s : Registry) : Registry :=
  { s with heap := fun x => if x = a then (s.heap a).map o.apply else s.heap x }

/-- What a thread can do: ask the registry for its Context, or call a mutating
member function through a reference it holds. -/
inductive Call where
  | get (e : Env)
  | method (a : Addr) (o : Op)
  deriving DecidableEq, Repr

/-- One step of the system: a call together with the thread making it. -/
structure Event where
  tid : Tid
  call : Call
  deriving DecidableEq, Repr

/-- The step function of the registry, indexed by the calling thread. -/
def step (p : Platform) (ev : Event) (s : Registry) : Except Fatal Registry :=
  match ev.call with
  | .get e =>
    match GetContextForThisThread p e ev.tid s with
    | .error f => .error f
    | .ok (_, s1) => .ok s1
  | .method a o => .ok (callMethod a o s)

/-- A sequential run: the events in order, stopping at the first fatal one. -/
def runEvents (p : Platform) : List Event → Registry → Except Fatal Registry
  | [], s => .ok s
  | ev :: evs, s =>
    match step p ev s with
    | .error f => .error f
    | .ok s1 => runEvents p evs s1

/-- The query `GetContextForThisThread().InRealtimeContext()` made by `t`. -/
def queryInRealtimeContext (p : Platform) (e : Env) (t : Tid) (s : Registry) :
    Except Fatal (Option Bool) :=
  match GetContextForThisThread p e t s with
  | .error f => .error f
  | .ok (a, s1) => .ok ((s1.heap a).map Context.InRealtimeContext)

/-! ## Statement-level interleaving of the Windows arm -/

/-- Where a thread stands inside the Windows arm of
`GetContextForThisThreadImpl`: before the test of line 57, between the test
and `TlsAlloc` (line 59), before `TlsGetValue` (line 64), or returned. -/
inductive WinPc where
  | entry
  | create
  | lookup
  | returned (a : Addr)
  deriving DecidableEq, Repr

/-- The registry together with the position of every thread. -/
structure WinConc where
  reg : Registry
  pc : Tid → WinPc

namespace WinConc

/-- All threads about to enter the function, registry at program start. -/
def init : WinConc := { reg := Registry.init, pc := fun _ => WinPc.entry }

/-- Move thread `t` to position `q`. -/
def goto (c : WinConc) (t : Tid) (q : WinPc) (r : Registry) : WinConc :=
  { reg := r, pc := fun u => if u = t then q else c.pc u }

end WinConc

/-- One scheduling step of thread `t` on the Windows arm.  `entry` performs
the test `context_key == 0` of line 57; `create` performs lines 59-60;
`lookup` performs lines 64-75. -/
def winMicroStep (e : Env) (t : Tid) (c : WinConc) : Except Fatal WinConc :=
  match c.pc t with
  | .entry =>
    if c.reg.context_key = 0 then .ok (c.goto t .create c.reg)
    else .ok (c.goto t .lookup c.reg)
  | .create =>
    if e.new_key = TLS_OUT_OF_INDEXES then .error Fatal.check_failed
    else .ok (c.goto t .lookup
      { c.reg with context_key := e.new_key, key_creations := c.reg.key_creations + 1 })
  | .lookup =>
    match lookupOrCreate e t c.reg with
    | .error f => .error f
    | .ok (a, r) => .ok (c.goto t (.returned a) r)
  | .returned _ => .ok c

/-- A schedule: which thread moves next, with the platform's answers. -/
def runSchedule : List (Tid × Env) → WinConc → Except Fatal WinConc
  | [], c => .ok c
  | (t, e) :: rest, c =>
    match winMicroStep e t c with
    | .error f => .error f
    | .ok c1 => runSchedule rest c1

/-- The invariant that every non-null slot designates a constructed Context. -/
def Registry.SlotsLive (s : Registry) : Prop :=
  ∀ (k : Key) (t : Tid), s.tls k t ≠ 0 → (s.heap (s.tls k t)).isSome = true

/-- Whether the process-wide key would be created by the next call: the init
routine of `pthread_once` has not run yet (pthread), respectively the test
`context_key == 0` of line 57 succeeds (Windows). -/
def keyPending (p : Platform) (s : Registry) : Bool :=
  match p with
  | .posix => !s.key_once
  | .windows => decide (s.context_key = 0)

/-- Whether the key-creation primitive reports failure in `e`:
`pthread_key_create` returns non-zero, respectively `TlsAlloc` returns
`TLS_OUT_OF_INDEXES`. -/
def keyCreationFails (p : Platform) (e : Env) : Bool :=
  match p with
  | .posix => decide (e.key_create_rc ≠ 0)
  | .windows => decide (e.new_key = TLS_OUT_OF_INDEXES)

/-- Platform answers in which every primitive succeeds: key creation yields
`k`, the allocator yields `a`. -/
def answers (k : Key) (a : Addr) : Env :=
  { key_create_rc := 0, new_key := k, raw_alloc := a }

/-- Thread `t` has been handed the Context at `a` by the registry: one of its
slots holds the non-null address `a`. -/
def Registry.Owns (s : Registry) (t : Tid) (a : Addr) : Prop :=
  a ≠ 0 ∧ ∃ k, s.tls k t = a

/-- No two threads have been handed the same Context. -/
def Registry.Unshared (s : Registry) : Prop :=
  ∀ (k1 k2 : Key) (t1 t2 : Tid), s.tls k1 t1 ≠ 0 → s.tls k1 t1 = s.tls k2 t2 → t1 = t2

/-- The conditions under which an event can occur in state `s`: the raw
allocator never hands out storage that is still in use, and a thread calls
member functions only through a reference the registry has given it. -/
def Event.Admissible (ev : Event) (s : Registry) : Prop :=
  match ev.call with
  | .get e => s.heap e.raw_alloc = none
  | .method a _ => s.Owns ev.tid a

/-! ## Properties of the Context counters -/

theorem runOps_append (xs ys : List Op) (c : Context) :
    runOps (xs ++ ys) c = runOps ys (runOps xs c) := by
  induction xs generalizing c with
  | nil => rfl
  | cons o os ih => simp [runOps, ih]

theorem runOps_realtime_depth (ops : List Op) (c : Context) :
    (runOps ops c).realtime_depth_ =
      c.realtime_depth_ + (ops.count Op.RealtimePush : Int) - (ops.count Op.RealtimePop : Int) := by
  induction ops generalizing c with
  | nil => simp [runOps]
  | cons o os ih =>
    cases o <;>
      simp [runOps, ih, Op.apply, Context.RealtimePush, Context.RealtimePop,
        Context.BypassPush, Context.BypassPop, List.count_cons] <;> omega

theorem runOps_bypass_depth (ops : List Op) (c : Context) :
    (runOps ops c).bypass_depth_ =
      c.bypass_depth_ + (ops.count Op.BypassPush : Int) - (ops.count Op.BypassPop : Int) := by
  induction ops generalizing c with
  | nil => simp [runOps]
  | cons o os ih =>
    cases o <;>
      simp [runOps, ih, Op.apply, Context.RealtimePush, Context.RealtimePop,
        Context.BypassPush, Context.BypassPop, List.count_cons] <;> omega

theorem runOps_replicate_RealtimePop (k : Nat) (c : Context) :
    runOps (List.replicate k Op.RealtimePop) c =
      { c with realtime_depth_ := c.realtime_depth_ - k } := by
  induction k generalizing c with
  | zero => simp [runOps]
  | succ k ih =>
    simp only [List.replicate_succ, runOps, ih, Op.apply, Context.RealtimePop]
    congr 1
    push_cast
    omega

theorem runOps_replicate_BypassPop (k : Nat) (c : Context) :
    runOps (List.replicate k Op.BypassPop) c =
      { c with bypass_depth_ := c.bypass_depth_ - k } := by
  induction k generalizing c with
  | zero => simp [runOps]
  | succ k ih =>
    simp only [List.replicate_succ, runOps, ih, Op.apply, Context.BypassPop]
    congr 1
    push_cast
    omega

theorem runOps_replicate_RealtimePush (j : Nat) (c : Context) :
    runOps (List.replicate j Op.RealtimePush) c =
      { c with realtime_depth_ := c.realtime_depth_ + j } := by
  induction j generalizing c with
  | zero => simp [runOps]
  | succ j ih =>
    simp only [List.replicate_succ, runOps, ih, Op.apply, Context.RealtimePush]
    congr 1
    push_cast
    omega

theorem runOps_replicate_BypassPush (j : Nat) (c : Context) :
    runOps (List.replicate j Op.BypassPush) c =
      { c with bypass_depth_ := c.bypass_depth_ + j } := by
  induction j generalizing c with
  | zero => simp [runOps]
  | succ j ih =>
    simp only [List.replicate_succ, runOps, ih, Op.apply, Context.BypassPush]
    congr 1
    push_cast
    omega

/-- C1: for every sequence of RealtimePush / RealtimePop calls applied to a
freshly constructed Context, with `n` pushes and `m` pops in total, `m ≤ n`
and `n` unbounded, `InRealtimeContext()` is true afterwards exactly when
`n > m`.  (Bypass calls may be interleaved; they do not count.) -/
theorem C1_in_realtime_iff_more_pushes (ops : List Op)
    (hnm : ops.count Op.RealtimePop ≤ ops.count Op.RealtimePush) :
    (runOps ops Context.new).InRealtimeContext = true ↔
      ops.count Op.RealtimePop < ops.count Op.RealtimePush := by
  have h := runOps_realtime_depth ops Context.new
  rw [Context.InRealtimeContext, decide_eq_true_eq, h]
  simp only [Context.new]
  omega

/-- C1, the scenario of the spec: two pushes followed by one pop leave the
thread in a realtime context. -/
theorem C1_in_realtime_iff_more_pushes_witness :
    [Op.RealtimePush, Op.RealtimePush, Op.RealtimePop].count Op.RealtimePop ≤
        [Op.RealtimePush, Op.RealtimePush, Op.RealtimePop].count Op.RealtimePush ∧
      (runOps [Op.RealtimePush, Op.RealtimePush, Op.RealtimePop]
        Context.new).InRealtimeContext = true :=
  ⟨by decide,
    (C1_in_realtime_iff_more_pushes [Op.RealtimePush, Op.RealtimePush, Op.RealtimePop]
      (by decide)).mpr (by decide)⟩

/-- C2: the two counters are independent.  From any Context state, a finite
sequence of BypassPush / BypassPop calls leaves `realtime_depth_` and
`InRealtimeContext()` as they were, and a finite sequence of RealtimePush /
RealtimePop calls leaves `bypass_depth_` and `IsBypassed()` as they were. -/
theorem C2_counters_independent (c : Context) (bs rs : List Op)
    (hbs : ∀ o ∈ bs, o = Op.BypassPush ∨ o = Op.BypassPop)
    (hrs : ∀ o ∈ rs, o = Op.RealtimePush ∨ o = Op.RealtimePop) :
    ((runOps bs c).realtime_depth_ = c.realtime_depth_ ∧
        (runOps bs c).InRealtimeContext = c.InRealtimeContext) ∧
      ((runOps rs c).bypass_depth_ = c.bypass_depth_ ∧
        (runOps rs c).IsBypassed = c.IsBypassed) := by
  have h1 : bs.count Op.RealtimePush = 0 := by
    rw [List.count_eq_zero]
    intro hmem
    rcases hbs _ hmem with h | h <;> cases h
  have h2 : bs.count Op.RealtimePop = 0 := by
    rw [List.count_eq_zero]
    intro hmem
    rcases hbs _ hmem with h | h <;> cases h
  have h3 : rs.count Op.BypassPush = 0 := by
    rw [List.count_eq_zero]
    intro hmem
    rcases hrs _ hmem with h | h <;> cases h
  have h4 : rs.count Op.BypassPop = 0 := by
    rw [List.count_eq_zero]
    intro hmem
    rcases hrs _ hmem with h | h <;> cases h
  have hr : (runOps bs c).realtime_depth_ = c.realtime_depth_ := by
    rw [runOps_realtime_depth, h1, h2]; simp
  have hb : (runOps rs c).bypass_depth_ = c.bypass_depth_ := by
    rw [runOps_bypass_depth, h3, h4]; simp
  exact ⟨⟨hr, by simp [Context.InRealtimeContext, hr]⟩, ⟨hb, by simp [Context.IsBypassed, hb]⟩⟩

/-- C2 at a concrete state: a thread nested two deep and bypassed once. -/
theorem C2_counters_independent_witness :
    ((runOps [Op.BypassPop, Op.BypassPop, Op.BypassPush]
          { realtime_depth_ := 2, bypass_depth_ := 1 }).realtime_depth_ = 2 ∧
        (runOps [Op.BypassPop, Op.BypassPop, Op.BypassPush]
          { realtime_depth_ := 2, bypass_depth_ := 1 }).InRealtimeContext = true) ∧
      ((runOps [Op.RealtimePop, Op.RealtimePop, Op.RealtimePop]
          { realtime_depth_ := 2, bypass_depth_ := 1 }).bypass_depth_ = 1 ∧
        (runOps [Op.RealtimePop, Op.RealtimePop, Op.RealtimePop]
          { realtime_depth_ := 2, bypass_depth_ := 1 }).IsBypassed = true) :=
  C2_counters_independent { realtime_depth_ := 2, bypass_depth_ := 1 }
    [Op.BypassPop, Op.BypassPop, Op.BypassPush]
    [Op.RealtimePop, Op.RealtimePop, Op.RealtimePop] (by decide) (by decide)

/-- C9: on a fresh Context the sequence RealtimePush, BypassPush, RealtimePop
gives `InRealtimeContext() = false` and `IsBypassed() = true`; and from any
Context state, a RealtimePush ... RealtimePop pair with a BypassPush inserted
at any place between the two ends with `realtime_depth_` and `bypass_depth_`
where the calls around the BypassPush alone would have left them, the latter
one higher; so with nothing else (or anything balanced) inside the pair,
`realtime_depth_` is back at its starting value and `bypass_depth_` is one
above its starting value. -/
theorem C9_bypass_inside_realtime_pair :
    ((runOps [Op.RealtimePush, Op.BypassPush, Op.RealtimePop] Context.new).InRealtimeContext
          = false ∧
        (runOps [Op.RealtimePush, Op.BypassPush, Op.RealtimePop] Context.new).IsBypassed
          = true) ∧
      (∀ c : Context, runOps [Op.RealtimePush, Op.BypassPush, Op.RealtimePop] c =
        { realtime_depth_ := c.realtime_depth_, bypass_depth_ := c.bypass_depth_ + 1 }) ∧
      (∀ (c : Context) (xs ys : List Op),
        (runOps (Op.RealtimePush :: (xs ++ Op.BypassPush :: (ys ++ [Op.RealtimePop]))) c
            ).realtime_depth_ = (runOps (xs ++ ys) c).realtime_depth_ ∧
        (runOps (Op.RealtimePush :: (xs ++ Op.BypassPush :: (ys ++ [Op.RealtimePop]))) c
            ).bypass_depth_ = (runOps (xs ++ ys) c).bypass_depth_ + 1) ∧
      (∀ (c : Context) (xs ys : List Op), runOps (xs ++ ys) c = c →
        runOps (Op.RealtimePush :: (xs ++ Op.BypassPush :: (ys ++ [Op.RealtimePop]))) c =
          { realtime_depth_ := c.realtime_depth_, bypass_depth_ := c.bypass_depth_ + 1 }) := by
  have key : ∀ (c : Context) (xs ys : List Op),
      (runOps (Op.RealtimePush :: (xs ++ Op.BypassPush :: (ys ++ [Op.RealtimePop]))) c
          ).realtime_depth_ = (runOps (xs ++ ys) c).realtime_depth_ ∧
      (runOps (Op.RealtimePush :: (xs ++ Op.BypassPush :: (ys ++ [Op.RealtimePop]))) c
          ).bypass_depth_ = (runOps (xs ++ ys) c).bypass_depth_ + 1 := by
    intro c xs ys
    constructor
    · simp only [runOps_realtime_depth, List.count_cons, List.count_append, List.count_nil]
      simp
      omega
    · simp only [runOps_bypass_depth, List.count_cons, List.count_append, List.count_nil]
      simp
      omega
  refine ⟨⟨by decide, by decide⟩, ?_, key, ?_⟩
  · intro c
    simp [runOps, Op.apply, Context.RealtimePush, Context.RealtimePop, Context.BypassPush]
  · intro c xs ys h
    have hk := key c xs ys
    rw [h] at hk
    cases hr : runOps (Op.RealtimePush :: (xs ++ Op.BypassPush :: (ys ++ [Op.RealtimePop]))) c
    rw [hr] at hk
    simp only at hk
    simp [hk.1, hk.2]

/-- C10: unmatched leaves are neither clamped nor failing.  On a fresh Context
`k ≥ 1` RealtimePop calls leave `realtime_depth_` at `-k` with
`InRealtimeContext()` false, and `j` following RealtimePush calls make
`InRealtimeContext()` true exactly when `j > k`; one pop followed by one push
gives false.  The same holds for BypassPop / BypassPush and `IsBypassed()`. -/
theorem C10_unmatched_pop_goes_negative (k j : Nat) (_hk : 1 ≤ k) :
    ((runOps (List.replicate k Op.RealtimePop) Context.new).realtime_depth_ = -(k : Int) ∧
        (runOps (List.replicate k Op.RealtimePop) Context.new).InRealtimeContext = false ∧
        ((runOps (List.replicate k Op.RealtimePop ++ List.replicate j Op.RealtimePush)
            Context.new).InRealtimeContext = true ↔ k < j) ∧
        (runOps [Op.RealtimePop, Op.RealtimePush] Context.new).InRealtimeContext = false) ∧
      ((runOps (List.replicate k Op.BypassPop) Context.new).bypass_depth_ = -(k : Int) ∧
        (runOps (List.replicate k Op.BypassPop) Context.new).IsBypassed = false ∧
        ((runOps (List.replicate k Op.BypassPop ++ List.replicate j Op.BypassPush)
            Context.new).IsBypassed = true ↔ k < j) ∧
        (runOps [Op.BypassPop, Op.BypassPush] Context.new).IsBypassed = false) := by
  refine ⟨⟨?_, ?_, ?_, by decide⟩, ⟨?_, ?_, ?_, by decide⟩⟩
  · simp [runOps_replicate_RealtimePop, Context.new]
  · simp [runOps_replicate_RealtimePop, Context.new, Context.InRealtimeContext]
  · simp only [runOps_append, runOps_replicate_RealtimePop, runOps_replicate_RealtimePush,
      Context.new, Context.InRealtimeContext, decide_eq_true_eq]
    omega
  · simp [runOps_replicate_BypassPop, Context.new]
  · simp [runOps_replicate_BypassPop, Context.new, Context.IsBypassed]
  · simp only [runOps_append, runOps_replicate_BypassPop, runOps_replicate_BypassPush,
      Context.new, Context.IsBypassed, decide_eq_true_eq]
    omega

/-- C10 at `k = 1`, `j = 1`: one unmatched pop, then one push. -/
theorem C10_unmatched_pop_goes_negative_witness :
    (1 : Nat) ≤ 1 ∧
      (runOps (List.replicate 1 Op.RealtimePop) Context.new).realtime_depth_ = -1 ∧
      ((runOps (List.replicate 1 Op.RealtimePop ++ List.replicate 1 Op.RealtimePush)
          Context.new).InRealtimeContext = true ↔ 1 < 1) :=
  ⟨le_refl 1, (C10_unmatched_pop_goes_negative 1 1 (le_refl 1)).1.1,
    (C10_unmatched_pop_goes_negative 1 1 (le_refl 1)).1.2.2.1⟩

/-! ## Properties of the registry -/

theorem lookupOrCreate_ok_of_alloc (e : Env) (t : Tid) (s : Registry)
    (hnull : s.tls s.context_key t = 0) (halloc : e.raw_alloc ≠ 0) :
    lookupOrCreate e t s = .ok (e.raw_alloc,
      (({ s with allocations := s.allocations + 1 } : Registry).construct
        e.raw_alloc).setSlot s.context_key t e.raw_alloc) := by
  simp [lookupOrCreate, InternalAlloc, hnull, halloc]

theorem lookupOrCreate_result (e : Env) (t : Tid) (s : Registry) (a : Addr) (s1 : Registry)
    (h : lookupOrCreate e t s = .ok (a, s1)) :
    a ≠ 0 ∧ s1.context_key = s.context_key ∧ s1.key_once = s.key_once ∧
      s1.key_creations = s.key_creations ∧ s1.tls s1.context_key t = a ∧
      (∀ k u, u ≠ t → s1.tls k u = s.tls k u) ∧
      (∀ k, k ≠ s.context_key → s1.tls k t = s.tls k t) := by
  unfold lookupOrCreate at h
  by_cases hnull : s.tls s.context_key t = 0
  · by_cases halloc : e.raw_alloc = 0
    · simp [hnull, InternalAlloc, halloc] at h
    · simp only [hnull, InternalAlloc, halloc, if_true, if_false, Except.ok.injEq,
        Prod.mk.injEq] at h
      obtain ⟨ha, hs⟩ := h
      subst ha
      subst hs
      refine ⟨halloc, rfl, rfl, rfl, ?_, ?_, ?_⟩
      · simp [Registry.setSlot, Registry.construct]
      · intro k u hu
        simp [Registry.setSlot, Registry.construct, hu]
      · intro k hk
        simp [Registry.setSlot, Registry.construct, hk]
  · simp only [hnull, if_false, Except.ok.injEq, Prod.mk.injEq] at h
    obtain ⟨ha, hs⟩ := h
    subst ha
    subst hs
    exact ⟨hnull, rfl, rfl, rfl, rfl, fun _ _ _ => rfl, fun _ _ => rfl⟩

theorem lookupOrCreate_live (e : Env) (t : Tid) (s : Registry) (a : Addr) (s1 : Registry)
    (hlive : s.SlotsLive) (h : lookupOrCreate e t s = .ok (a, s1)) :
    s1.SlotsLive ∧ (s1.heap a).isSome = true := by
  unfold lookupOrCreate at h
  by_cases hnull : s.tls s.context_key t = 0
  · by_cases halloc : e.raw_alloc = 0
    · simp [hnull, InternalAlloc, halloc] at h
    · simp only [hnull, InternalAlloc, halloc, if_true, if_false, Except.ok.injEq,
        Prod.mk.injEq] at h
      obtain ⟨ha, hs⟩ := h
      subst ha
      subst hs
      constructor
      · intro k u hne
        by_cases hku : k = s.context_key ∧ u = t
        · simp [Registry.setSlot, Registry.construct, hku]
        · simp only [Registry.setSlot, Registry.construct, hku, if_false] at hne ⊢
          by_cases hx : s.tls k u = e.raw_alloc
          · simp [hx]
          · simp only [hx, if_false]
            exact hlive k u hne
      · simp [Registry.setSlot, Registry.construct]
  · simp only [hnull, if_false, Except.ok.injEq, Prod.mk.injEq] at h
    obtain ⟨ha, hs⟩ := h
    subst ha
    subst hs
    exact ⟨hlive, hlive _ _ hnull⟩

theorem keyStep_frame (p : Platform) (e : Env) (s s1 : Registry)
    (h : (match p with
          | .posix => pthread_once e s
          | .windows => winEnsureKey e s) = .ok s1) :
    s1.tls = s.tls ∧ s1.heap = s.heap ∧ s1.allocations = s.allocations := by
  cases p
  · simp only [pthread_once, MakeThreadLocalContextKey] at h
    by_cases h1 : s.key_once = true
    · simp only [h1, if_true, Except.ok.injEq] at h
      subst h
      exact ⟨rfl, rfl, rfl⟩
    · by_cases h2 : e.key_create_rc = 0
      · simp only [h1, h2, if_true, Except.map, Except.ok.injEq] at h
        simp only [Bool.false_eq_true, if_false, Except.ok.injEq] at h
        subst h
        exact ⟨rfl, rfl, rfl⟩
      · simp [h1, h2, Except.map] at h
  · simp only [winEnsureKey] at h
    by_cases h1 : s.context_key = 0
    · by_cases h2 : e.new_key = TLS_OUT_OF_INDEXES
      · simp [h1, h2] at h
      · simp only [h1, h2, if_true, if_false, Except.ok.injEq] at h
        subst h
        exact ⟨rfl, rfl, rfl⟩
    · simp only [h1, if_false, Except.ok.injEq] at h
      subst h
      exact ⟨rfl, rfl, rfl⟩

theorem GetContextForThisThread_eq (p : Platform) (e : Env) (t : Tid) (s : Registry) :
    GetContextForThisThread p e t s =
      match (match p with
          | .posix => pthread_once e s
          | .windows => winEnsureKey e s) with
      | .error f => .error f
      | .ok s1 => lookupOrCreate e t s1 := by
  cases p <;> rfl

theorem GetContextForThisThread_frame (p : Platform) (e : Env) (t : Tid) (s : Registry)
    (a : Addr) (s1 : Registry) (h : GetContextForThisThread p e t s = .ok (a, s1)) :
    a ≠ 0 ∧ s1.slot t = a ∧ ∀ k u, u ≠ t → s1.tls k u = s.tls k u := by
  rw [GetContextForThisThread_eq] at h
  cases hk : (match p with
      | .posix => pthread_once e s
      | .windows => winEnsureKey e s) with
  | error f => rw [hk] at h; cases h
  | ok s0 =>
    rw [hk] at h
    have hl := lookupOrCreate_result e t s0 a s1 h
    have hf := keyStep_frame p e s s0 hk
    refine ⟨hl.1, hl.2.2.2.2.1, ?_⟩
    intro k u hu
    rw [hl.2.2.2.2.2.1 k u hu, hf.1]

theorem step_tls_of_no_get (p : Platform) (ev : Event) (t : Tid) (s s1 : Registry)
    (hno : ∀ e, ev ≠ ⟨t, Call.get e⟩) (h : step p ev s = .ok s1) :
    ∀ k, s1.tls k t = s.tls k t := by
  obtain ⟨u, c⟩ := ev
  cases c with
  | get e =>
    have hu : t ≠ u := by
      intro htu
      exact hno e (by rw [htu])
    simp only [step] at h
    cases hg : GetContextForThisThread p e u s with
    | error f => rw [hg] at h; cases h
    | ok r =>
      obtain ⟨a, s2⟩ := r
      rw [hg] at h
      simp only [Except.ok.injEq] at h
      subst h
      intro k
      exact (GetContextForThisThread_frame p e u s a s2 hg).2.2 k t hu
  | method a o =>
    simp only [step, callMethod, Except.ok.injEq] at h
    subst h
    intro k
    rfl

theorem runEvents_tls_of_no_get (p : Platform) (evs : List Event) (t : Tid) (s s1 : Registry)
    (hno : ∀ e, (⟨t, Call.get e⟩ : Event) ∉ evs) (h : runEvents p evs s = .ok s1) :
    ∀ k, s1.tls k t = s.tls k t := by
  induction evs generalizing s with
  | nil =>
    simp only [runEvents, Except.ok.injEq] at h
    subst h
    intro k
    rfl
  | cons ev rest ih =>
    simp only [runEvents] at h
    cases hs : step p ev s with
    | error f => rw [hs] at h; cases h
    | ok s2 =>
      rw [hs] at h
      have h1 := step_tls_of_no_get p ev t s s2
        (fun e heq => hno e (by rw [heq]; exact List.mem_cons_self _ _)) hs
      have h2 := ih s2 (fun e hmem => hno e (List.mem_cons_of_mem _ hmem)) h
      intro k
      rw [h2 k, h1 k]

theorem step_SlotsLive (p : Platform) (ev : Event) (s s1 : Registry)
    (hlive : s.SlotsLive) (h : step p ev s = .ok s1) : s1.SlotsLive := by
  obtain ⟨u, c⟩ := ev
  cases c with
  | get e =>
    simp only [step] at h
    cases hg : GetContextForThisThread p e u s with
    | error f => rw [hg] at h; cases h
    | ok r =>
      obtain ⟨a, s2⟩ := r
      rw [hg] at h
      simp only [Except.ok.injEq] at h
      subst h
      rw [GetContextForThisThread_eq] at hg
      cases hk : (match p with
          | .posix => pthread_once e s
          | .windows => winEnsureKey e s) with
      | error f => rw [hk] at hg; cases hg
      | ok s0 =>
        rw [hk] at hg
        have hf := keyStep_frame p e s s0 hk
        have hlive0 : s0.SlotsLive := by
          intro k t hne
          rw [hf.1, hf.2.1] at *
          exact hlive k t hne
        exact (lookupOrCreate_live e u s0 a s2 hlive0 hg).1
  | method a o =>
    simp only [step, callMethod, Except.ok.injEq] at h
    subst h
    intro k t hne
    have := hlive k t hne
    by_cases hx : s.tls k t = a
    · simp only [hx, if_true]
      rw [hx] at this
      simpa using this
    · simpa only [hx, if_false] using this

theorem Registry.init_SlotsLive : Registry.init.SlotsLive := by
  intro k t hne
  exact absurd rfl hne

theorem runEvents_SlotsLive (p : Platform) (evs : List Event) (s s1 : Registry)
    (hlive : s.SlotsLive) (h : runEvents p evs s = .ok s1) : s1.SlotsLive := by
  induction evs generalizing s with
  | nil =>
    simp only [runEvents, Except.ok.injEq] at h
    subst h
    exact hlive
  | cons ev rest ih =>
    simp only [runEvents] at h
    cases hs : step p ev s with
    | error f => rw [hs] at h; cases h
    | ok s2 =>
      rw [hs] at h
      exact ih s2 (step_SlotsLive p ev s s2 hlive hs) h

/-- C5: for a thread that has made no prior call, the first
`GetContextForThisThread` call (with key creation, if it falls to this call,
and the allocator succeeding) allocates one Context, constructs it with both
counters at zero and stores its address in the calling thread's slot; on the
returned Context `InRealtimeContext()` and `IsBypassed()` are both false. -/
theorem C5_first_call_constructs_zero_context (p : Platform) (evs : List Event)
    (s : Registry) (t : Tid) (e : Env)
    (hrun : runEvents p evs Registry.init = .ok s)
    (hfirst : ∀ e0, (⟨t, Call.get e0⟩ : Event) ∉ evs)
    (hkey : keyPending p s = true → keyCreationFails p e = false)
    (halloc : e.raw_alloc ≠ 0) :
    ∃ s1, GetContextForThisThread p e t s = .ok (e.raw_alloc, s1) ∧
      s1.allocations = s.allocations + 1 ∧
      s1.heap e.raw_alloc = some { realtime_depth_ := 0, bypass_depth_ := 0 } ∧
      s1.slot t = e.raw_alloc ∧
      (s1.heap e.raw_alloc).map Context.InRealtimeContext = some false ∧
      (s1.heap e.raw_alloc).map Context.IsBypassed = some false := by
  have hnull : ∀ k, s.tls k t = 0 := fun k =>
    runEvents_tls_of_no_get p evs t Registry.init s hfirst hrun k
  have hstep : ∃ s0, (match p with
        | .posix => pthread_once e s
        | .windows => winEnsureKey e s) = .ok s0 := by
    cases p
    · by_cases h1 : s.key_once = true
      · exact ⟨s, by simp [pthread_once, h1]⟩
      · have h2 : e.key_create_rc = 0 := by
          have := hkey (by simp [keyPending, h1])
          simpa [keyCreationFails] using this
        exact ⟨_, by simp [pthread_once, MakeThreadLocalContextKey, h1, h2, Except.map]; rfl⟩
    · by_cases h1 : s.context_key = 0
      · have h2 : e.new_key ≠ TLS_OUT_OF_INDEXES := by
          have := hkey (by simp [keyPending, h1])
          simpa [keyCreationFails] using this
        exact ⟨_, by simp [winEnsureKey, h1, h2]; rfl⟩
      · exact ⟨s, by simp [winEnsureKey, h1]⟩
  obtain ⟨s0, hs0⟩ := hstep
  have hf := keyStep_frame p e s s0 hs0
  have hnull0 : s0.tls s0.context_key t = 0 := by rw [hf.1]; exact hnull _
  refine ⟨(({ s0 with allocations := s0.allocations + 1 } : Registry).construct
        e.raw_alloc).setSlot s0.context_key t e.raw_alloc, ?_, ?_, ?_, ?_, ?_, ?_⟩
  · rw [GetContextForThisThread_eq, hs0]
    exact lookupOrCreate_ok_of_alloc e t s0 hnull0 halloc
  · simp [Registry.setSlot, Registry.construct, hf.2.2]
  · simp [Registry.setSlot, Registry.construct, Context.new]
  · simp [Registry.slot, Registry.setSlot, Registry.construct]
  · simp [Registry.setSlot, Registry.construct, Context.new, Context.InRealtimeContext]
  · simp [Registry.setSlot, Registry.construct, Context.new, Context.IsBypassed]

/-- C5 at a concrete input, pthread path: thread 1 has already obtained and
used its Context; thread 2 calls for the first time. -/
theorem C5_first_call_constructs_zero_context_witness :
    ∃ s, runEvents Platform.posix
        [⟨1, Call.get (answers 7 100)⟩, ⟨1, Call.method 100 Op.RealtimePush⟩]
        Registry.init = .ok s ∧
      ∃ s1, GetContextForThisThread Platform.posix (answers 8 200) 2 s
          = .ok ((answers 8 200).raw_alloc, s1) ∧
        s1.allocations = s.allocations + 1 ∧
        s1.heap (answers 8 200).raw_alloc = some { realtime_depth_ := 0, bypass_depth_ := 0 } ∧
        s1.slot 2 = (answers 8 200).raw_alloc ∧
        (s1.heap (answers 8 200).raw_alloc).map Context.InRealtimeContext = some false ∧
        (s1.heap (answers 8 200).raw_alloc).map Context.IsBypassed = some false :=
  ⟨_, rfl,
    C5_first_call_constructs_zero_context Platform.posix
      [⟨1, Call.get (answers 7 100)⟩, ⟨1, Call.method 100 Op.RealtimePush⟩]
      _ 2 (answers 8 200) rfl (by intro e0 h; simp at h) (by intro h; cases h) (by decide)⟩

/-- C7: with the result of `GetContextForThisThread` as an `Except` (fatal
abort or a Context), a call in which creation of the process-wide key is due
and fails (`pthread_key_create` returns non-zero, `TlsAlloc` returns
`TLS_OUT_OF_INDEXES`) aborts through the CHECK and returns no Context; and
every call either aborts or returns a non-null Context, constructed and
stored in the calling thread's slot.  There is no third kind of result. -/
theorem C7_key_failure_is_fatal (p : Platform) (e : Env) (t : Tid) (s : Registry)
    (hlive : s.SlotsLive) :
    (keyPending p s = true → keyCreationFails p e = true →
        GetContextForThisThread p e t s = .error Fatal.check_failed) ∧
      ((∃ f, GetContextForThisThread p e t s = .error f) ∨
        ∃ a s1, GetContextForThisThread p e t s = .ok (a, s1) ∧ a ≠ 0 ∧
          s1.slot t = a ∧ (s1.heap a).isSome = true) := by
  constructor
  · intro hp hfail
    cases p
    · have h1 : s.key_once = false := by simpa [keyPending] using hp
      have h2 : e.key_create_rc ≠ 0 := by simpa [keyCreationFails] using hfail
      simp [GetContextForThisThread, GetContextForThisThreadImpl, pthread_once,
        MakeThreadLocalContextKey, h1, h2, Except.map]
    · have h1 : s.context_key = 0 := by simpa [keyPending] using hp
      have h2 : e.new_key = TLS_OUT_OF_INDEXES := by simpa [keyCreationFails] using hfail
      simp [GetContextForThisThread, GetContextForThisThreadImpl, winEnsureKey, h1, h2]
  · cases hg : GetContextForThisThread p e t s with
    | error f => exact Or.inl ⟨f, rfl⟩
    | ok r =>
      obtain ⟨a, s1⟩ := r
      refine Or.inr ⟨a, s1, rfl, ?_⟩
      have hfr := GetContextForThisThread_frame p e t s a s1 hg
      refine ⟨hfr.1, hfr.2.1, ?_⟩
      rw [GetContextForThisThread_eq] at hg
      cases hk : (match p with
          | .posix => pthread_once e s
          | .windows => winEnsureKey e s) with
      | error f => rw [hk] at hg; cases hg
      | ok s0 =>
        rw [hk] at hg
        have hf := keyStep_frame p e s s0 hk
        have hlive0 : s0.SlotsLive := by
          intro k u hne
          rw [hf.1, hf.2.1] at *
          exact hlive k u hne
        exact (lookupOrCreate_live e t s0 a s1 hlive0 hg).2

/-- C7 at concrete inputs: at program start a failing `pthread_key_create`
(return code 11) aborts the call, on the pthread path. -/
theorem C7_key_failure_is_fatal_witness :
    Registry.init.SlotsLive ∧
      GetContextForThisThread Platform.posix
        { key_create_rc := 11, new_key := 0, raw_alloc := 100 } 1 Registry.init
        = .error Fatal.check_failed :=
  ⟨Registry.init_SlotsLive,
    (C7_key_failure_is_fatal Platform.posix
      { key_create_rc := 11, new_key := 0, raw_alloc := 100 } 1 Registry.init
      Registry.init_SlotsLive).1 rfl rfl⟩

/-- C6, evaluated on the Windows path where `TlsAlloc` hands out index 0
first: thread 1 calls `GetContextForThisThread` twice.  The first call
creates the key and leaves `context_key = 0`; the second call finds
`context_key == 0` again, invokes `TlsAlloc` a second time and switches to
key 1.  On the pthread path the same two calls create the key once. -/
theorem C6_windows_key_zero_created_twice :
    (∃ s1 s2,
        runEvents Platform.windows [⟨1, Call.get (answers 0 100)⟩] Registry.init = .ok s1 ∧
        runEvents Platform.windows [⟨1, Call.get (answers 1 200)⟩] s1 = .ok s2 ∧
        s1.key_creations = 1 ∧ s1.context_key = 0 ∧
        s2.key_creations = 2 ∧ s2.context_key = 1) ∧
      (∃ s1 s2,
        runEvents Platform.posix [⟨1, Call.get (answers 0 100)⟩] Registry.init = .ok s1 ∧
        runEvents Platform.posix [⟨1, Call.get (answers 1 200)⟩] s1 = .ok s2 ∧
        s1.key_creations = 1 ∧ s1.context_key = 0 ∧
        s2.key_creations = 1 ∧ s2.context_key = 0) :=
  ⟨⟨_, _, rfl, rfl, rfl, rfl, rfl, rfl⟩, ⟨_, _, rfl, rfl, rfl, rfl, rfl, rfl⟩⟩

/-- C3, evaluated on the Windows path where `TlsAlloc` hands out index 0
first: thread 1 obtains its Context (at address 100), calls `RealtimePush`
through that reference, and calls `GetContextForThisThread` again, no other
thread running.  The second call switches to key 1, finds the thread's slot
null under it and returns a different, freshly constructed Context (at 200):
the push is not observed through the second reference.  On the pthread path
the same calls return the same Context twice. -/
theorem C3_windows_key_zero_second_call_differs :
    (∃ s1 s2 s3,
        GetContextForThisThread Platform.windows (answers 0 100) 1 Registry.init
          = .ok (100, s1) ∧
        s1.slot 1 = 100 ∧
        winEnsureKey (answers 1 200) (callMethod 100 Op.RealtimePush s1) = .ok s2 ∧
        s2.slot 1 = 0 ∧
        GetContextForThisThread Platform.windows (answers 1 200) 1
          (callMethod 100 Op.RealtimePush s1) = .ok (200, s3) ∧
        (s3.heap 100).map Context.InRealtimeContext = some true ∧
        (s3.heap 200).map Context.InRealtimeContext = some false) ∧
      (∃ s1 s3,
        GetContextForThisThread Platform.posix (answers 0 100) 1 Registry.init
          = .ok (100, s1) ∧
        GetContextForThisThread Platform.posix (answers 1 200) 1
          (callMethod 100 Op.RealtimePush s1) = .ok (100, s3) ∧
        (s3.heap 100).map Context.InRealtimeContext = some true) :=
  ⟨⟨_, _, _, rfl, rfl, rfl, rfl, rfl, rfl, rfl⟩, ⟨_, _, rfl, rfl, rfl⟩⟩

/-- C4, evaluated on the Windows path where `TlsAlloc` hands out index 0 and
then index 1, with threads A = 1 and B = 2.  First part: B obtains its
Context (at 200) and pushes; B's slot holds 200.  A then makes its first
call, which switches the process-wide key to 1: B's slot, as B reads it, is
null after A's step.  Second part: B performs the same calls (obtain, push,
query through the registry) in two runs; alone, B's query returns false; with
one call by A placed before them, B's query returns true. -/
theorem C4_windows_key_zero_breaks_isolation :
    (∃ s1 s2,
        runEvents Platform.windows
          [⟨2, Call.get (answers 0 200)⟩, ⟨2, Call.method 200 Op.RealtimePush⟩]
          Registry.init = .ok s1 ∧
        s1.slot 2 = 200 ∧
        step Platform.windows ⟨1, Call.get (answers 1 100)⟩ s1 = .ok s2 ∧
        s2.slot 2 = 0) ∧
      (∃ s1,
        runEvents Platform.windows
          [⟨2, Call.get (answers 0 200)⟩, ⟨2, Call.method 200 Op.RealtimePush⟩]
          Registry.init = .ok s1 ∧
        queryInRealtimeContext Platform.windows (answers 1 300) 2 s1 = .ok (some false)) ∧
      (∃ s1,
        runEvents Platform.windows
          [⟨1, Call.get (answers 0 100)⟩,
            ⟨2, Call.get (answers 1 200)⟩, ⟨2, Call.method 200 Op.RealtimePush⟩]
          Registry.init = .ok s1 ∧
        queryInRealtimeContext Platform.windows (answers 2 300) 2 s1 = .ok (some true)) :=
  ⟨⟨_, _, rfl, rfl, rfl, rfl⟩, ⟨_, rfl, rfl⟩, ⟨_, rfl, rfl⟩⟩

theorem winMicroStep_entry (e : Env) (t : Tid) (c : WinConc) (h : c.pc t = WinPc.entry) :
    winMicroStep e t c =
      if c.reg.context_key = 0 then .ok (c.goto t WinPc.create c.reg)
      else .ok (c.goto t WinPc.lookup c.reg) := by
  simp [winMicroStep, h]

theorem winMicroStep_create (e : Env) (t : Tid) (c : WinConc) (h : c.pc t = WinPc.create) :
    winMicroStep e t c =
      if e.new_key = TLS_OUT_OF_INDEXES then .error Fatal.check_failed
      else .ok (c.goto t WinPc.lookup
        { c.reg with context_key := e.new_key, key_creations := c.reg.key_creations + 1 }) := by
  simp [winMicroStep, h]

theorem winMicroStep_lookup (e : Env) (t : Tid) (c : WinConc) (h : c.pc t = WinPc.lookup) :
    winMicroStep e t c =
      match lookupOrCreate e t c.reg with
      | .error f => .error f
      | .ok (a, r) => .ok (c.goto t (WinPc.returned a) r) := by
  simp [winMicroStep, h]

theorem winMicroStep_returned (e : Env) (t : Tid) (c : WinConc) (a : Addr)
    (h : c.pc t = WinPc.returned a) : winMicroStep e t c = .ok c := by
  simp [winMicroStep, h]

theorem WinConc.goto_pc (c : WinConc) (t : Tid) (q : WinPc) (r : Registry) :
    (c.goto t q r).pc t = q := by
  simp [WinConc.goto]

theorem WinConc.goto_goto (c : WinConc) (t : Tid) (q1 q2 : WinPc) (r1 r2 : Registry) :
    (c.goto t q1 r1).goto t q2 r2 = c.goto t q2 r2 := by
  simp only [WinConc.goto, WinConc.mk.injEq, true_and]
  funext u
  by_cases hu : u = t <;> simp [hu]

theorem winMicroStep_sequential (e : Env) (t : Tid) (c : WinConc)
    (hpc : c.pc t = WinPc.entry) :
    runSchedule [(t, e), (t, e), (t, e)] c =
      match GetContextForThisThread Platform.windows e t c.reg with
      | .error f => .error f
      | .ok (a, r) => .ok (c.goto t (WinPc.returned a) r) := by
  simp only [runSchedule, GetContextForThisThread, GetContextForThisThreadImpl, winEnsureKey]
  rw [winMicroStep_entry e t c hpc]
  by_cases h0 : c.reg.context_key = 0
  · simp only [h0, if_true]
    rw [winMicroStep_create e t _ (WinConc.goto_pc _ _ _ _)]
    by_cases h1 : e.new_key = TLS_OUT_OF_INDEXES
    · simp only [h1, if_true]
    · simp only [h1, if_false]
      rw [winMicroStep_lookup e t _ (WinConc.goto_pc _ _ _ _)]
      simp only [WinConc.goto_goto]
      have hreg2 : ∀ r, (c.goto t WinPc.lookup r).reg = r := fun _ => rfl
      have hreg : (c.goto t WinPc.create c.reg).reg = c.reg := rfl
      rw [hreg2]
      simp only [hreg]
      cases lookupOrCreate e t
          { c.reg with context_key := e.new_key,
                        key_creations := c.reg.key_creations + 1 } with
      | error f => rfl
      | ok r =>
        obtain ⟨a, r1⟩ := r
        simp only [WinConc.goto_goto]
  · simp only [h0, if_false]
    rw [winMicroStep_lookup e t _ (WinConc.goto_pc _ _ _ _)]
    have hreg2 : ∀ r, (c.goto t WinPc.lookup r).reg = r := fun _ => rfl
    rw [hreg2]
    cases lookupOrCreate e t c.reg with
    | error f => rfl
    | ok r =>
      obtain ⟨a, r1⟩ := r
      simp only [WinConc.goto_goto]
      rw [winMicroStep_returned e t _ a (WinConc.goto_pc _ _ _ _)]

/-- C8, evaluated on the Windows path with two threads making their first
call concurrently and `TlsAlloc` handing out the non-zero indices 5 and 6.
Both threads perform the test `context_key == 0` before either has stored a
key, so both call `TlsAlloc`: key creation runs twice.  Thread 1 stores its
Context under key 5 and returns; thread 2 then overwrites `context_key` with
6, so that thread 1's slot under the process-wide key is null again. -/
theorem C8_windows_concurrent_first_calls_create_two_keys :
    ∃ c, runSchedule
        [(1, answers 5 100), (2, answers 6 200), (1, answers 5 100), (1, answers 5 100),
          (2, answers 6 200), (2, answers 6 200)] WinConc.init = .ok c ∧
      c.reg.key_creations = 2 ∧ c.reg.context_key = 6 ∧
      c.pc 1 = WinPc.returned 100 ∧ c.pc 2 = WinPc.returned 200 ∧
      c.reg.tls 5 1 = 100 ∧ c.reg.slot 1 = 0 ∧ c.reg.slot 2 = 200 :=
  ⟨_, rfl, rfl, rfl, rfl, rfl, rfl, rfl, rfl⟩

/-! ## What holds on both paths once the key is settled -/

theorem GetContextForThisThread_of_settled (p : Platform) (e : Env) (t : Tid) (s : Registry)
    (hset : keyPending p s = false) :
    GetContextForThisThread p e t s = lookupOrCreate e t s := by
  cases p
  · have h1 : s.key_once = true := by simpa [keyPending] using hset
    simp [GetContextForThisThread, GetContextForThisThreadImpl, pthread_once, h1]
  · have h1 : s.context_key ≠ 0 := by simpa [keyPending] using hset
    simp [GetContextForThisThread, GetContextForThisThreadImpl, winEnsureKey, h1]

theorem keyPending_congr (p : Platform) (s s1 : Registry)
    (h1 : s1.key_once = s.key_once) (h2 : s1.context_key = s.context_key) :
    keyPending p s1 = keyPending p s := by
  cases p <;> simp [keyPending, h1, h2]

theorem step_settled (p : Platform) (ev : Event) (s s1 : Registry)
    (hset : keyPending p s = false) (h : step p ev s = .ok s1) :
    keyPending p s1 = false ∧ s1.context_key = s.context_key ∧
      s1.key_creations = s.key_creations ∧
      ∀ t, s.slot t ≠ 0 → s1.slot t = s.slot t := by
  obtain ⟨u, c⟩ := ev
  cases c with
  | get e =>
    simp only [step] at h
    rw [GetContextForThisThread_of_settled p e u s hset] at h
    cases hl : lookupOrCreate e u s with
    | error f => rw [hl] at h; cases h
    | ok r =>
      obtain ⟨a, s2⟩ := r
      rw [hl] at h
      simp only [Except.ok.injEq] at h
      subst h
      have hr := lookupOrCreate_result e u s a s2 hl
      refine ⟨?_, hr.2.1, hr.2.2.2.1, ?_⟩
      · rw [keyPending_congr p s s2 hr.2.2.1 hr.2.1]; exact hset
      · intro t hne
        by_cases htu : t = u
        · subst htu
          unfold lookupOrCreate at hl
          have hne1 : ¬ s.tls s.context_key t = 0 := hne
          simp only [hne1, if_false, Except.ok.injEq, Prod.mk.injEq] at hl
          rw [← hl.2]
        · simp only [Registry.slot, hr.2.1]
          exact hr.2.2.2.2.2.1 _ t htu
  | method a o =>
    simp only [step, callMethod, Except.ok.injEq] at h
    subst h
    exact ⟨(keyPending_congr p s _ rfl rfl).trans hset, rfl, rfl, fun _ _ => rfl⟩

theorem runEvents_settled (p : Platform) (evs : List Event) (s s1 : Registry)
    (hset : keyPending p s = false) (h : runEvents p evs s = .ok s1) :
    keyPending p s1 = false ∧ s1.context_key = s.context_key ∧
      s1.key_creations = s.key_creations ∧
      ∀ t, s.slot t ≠ 0 → s1.slot t = s.slot t := by
  induction evs generalizing s with
  | nil =>
    simp only [runEvents, Except.ok.injEq] at h
    subst h
    exact ⟨hset, rfl, rfl, fun _ _ => rfl⟩
  | cons ev rest ih =>
    simp only [runEvents] at h
    cases hs : step p ev s with
    | error f => rw [hs] at h; cases h
    | ok s2 =>
      rw [hs] at h
      have h1 := step_settled p ev s s2 hset hs
      have h2 := ih s2 h1.1 h
      refine ⟨h2.1, by rw [h2.2.1, h1.2.1], by rw [h2.2.2.1, h1.2.2.1], ?_⟩
      intro t hne
      have e1 := h1.2.2.2 t hne
      rw [h2.2.2.2 t (by rw [e1]; exact hne), e1]

/-- Once the key is settled (the init routine of `pthread_once` has run,
respectively `context_key` is non-zero), a thread whose slot holds a Context
keeps it: whatever calls any threads make afterwards, every later
`GetContextForThisThread` by that thread returns the same address and changes
nothing. -/
theorem same_context_once_key_settled (p : Platform) (evs : List Event) (s s1 : Registry)
    (t : Tid) (e : Env) (hset : keyPending p s = false) (hslot : s.slot t ≠ 0)
    (hrun : runEvents p evs s = .ok s1) :
    GetContextForThisThread p e t s1 = .ok (s.slot t, s1) := by
  have h := runEvents_settled p evs s s1 hset hrun
  rw [GetContextForThisThread_of_settled p e t s1 h.1]
  have hs : s1.tls s1.context_key t = s.slot t := h.2.2.2 t hslot
  have hne : ¬ s1.tls s1.context_key t = 0 := by rw [hs]; exact hslot
  unfold lookupOrCreate
  rw [if_neg hne, hs]

/-- On the pthread path the key is settled by the first call that returns. -/
theorem posix_settled_after_call (e : Env) (t : Tid) (s s1 : Registry) (a : Addr)
    (h : GetContextForThisThread Platform.posix e t s = .ok (a, s1)) :
    keyPending Platform.posix s1 = false ∧ s1.slot t = a ∧ a ≠ 0 := by
  have hfr := GetContextForThisThread_frame Platform.posix e t s a s1 h
  refine ⟨?_, hfr.2.1, hfr.1⟩
  simp only [GetContextForThisThread, GetContextForThisThreadImpl] at h
  cases hk : pthread_once e s with
  | error f => rw [hk] at h; cases h
  | ok s0 =>
    rw [hk] at h
    have hr := lookupOrCreate_result e t s0 a s1 h
    have h0 : s0.key_once = true := by
      simp only [pthread_once, MakeThreadLocalContextKey] at hk
      by_cases h1 : s.key_once = true
      · simp only [h1, if_true, Except.ok.injEq] at hk
        rw [← hk]; exact h1
      · by_cases h2 : e.key_create_rc = 0
        · simp only [h1, h2, if_true, Except.map, Except.ok.injEq] at hk
          simp only [Bool.false_eq_true, if_false, Except.ok.injEq] at hk
          rw [← hk]
        · simp [h1, h2, Except.map] at hk
    simp [keyPending, hr.2.2.1, h0]

/-- On the pthread path `pthread_key_create` has been invoked once if the
init routine has run and not at all otherwise, in every state reached from
program start. -/
theorem posix_key_created_once (evs : List Event) (s : Registry)
    (hrun : runEvents Platform.posix evs Registry.init = .ok s) :
    s.key_creations = if s.key_once then 1 else 0 := by
  have hstep : ∀ (ev : Event) (s s1 : Registry),
      s.key_creations = (if s.key_once then 1 else 0) →
      step Platform.posix ev s = .ok s1 →
      s1.key_creations = if s1.key_once then 1 else 0 := by
    intro ev s s1 hinv h
    obtain ⟨u, c⟩ := ev
    cases c with
    | get e =>
      simp only [step, GetContextForThisThread, GetContextForThisThreadImpl] at h
      cases hk : pthread_once e s with
      | error f => rw [hk] at h; simp at h
      | ok s0 =>
        rw [hk] at h
        dsimp only at h
        cases hl : lookupOrCreate e u s0 with
        | error f => rw [hl] at h; cases h
        | ok r =>
          obtain ⟨a, s2⟩ := r
          rw [hl] at h
          simp only [Except.ok.injEq] at h
          subst h
          have hr := lookupOrCreate_result e u s0 a s2 hl
          rw [hr.2.2.2.1, hr.2.2.1]
          simp only [pthread_once, MakeThreadLocalContextKey] at hk
          by_cases h1 : s.key_once = true
          · simp only [h1, if_true, Except.ok.injEq] at hk
            rw [← hk]; exact hinv
          · by_cases h2 : e.key_create_rc = 0
            · simp only [h1, h2, if_true, Except.map, Except.ok.injEq] at hk
              simp only [Bool.false_eq_true, if_false, Except.ok.injEq] at hk
              rw [← hk]
              simp only [h1, Bool.false_eq_true, if_false] at hinv
              simp [hinv]
            · simp [h1, h2, Except.map] at hk
    | method a o =>
      simp only [step, callMethod, Except.ok.injEq] at h
      subst h
      exact hinv
  have hgen : ∀ (evs : List Event) (s s1 : Registry),
      s.key_creations = (if s.key_once then 1 else 0) →
      runEvents Platform.posix evs s = .ok s1 →
      s1.key_creations = if s1.key_once then 1 else 0 := by
    intro evs
    induction evs with
    | nil =>
      intro s s1 hinv h
      simp only [runEvents, Except.ok.injEq] at h
      subst h
      exact hinv
    | cons ev rest ih =>
      intro s s1 hinv h
      simp only [runEvents] at h
      cases hs : step Platform.posix ev s with
      | error f => rw [hs] at h; cases h
      | ok s2 =>
        rw [hs] at h
        exact ih s2 s1 (hstep ev s s2 hinv hs) h
  exact hgen evs Registry.init s rfl hrun

/-! ## What a step of one thread leaves alone -/

theorem lookupOrCreate_cases (e : Env) (t : Tid) (s : Registry) (a : Addr) (s1 : Registry)
    (h : lookupOrCreate e t s = .ok (a, s1)) :
    (s.tls s.context_key t ≠ 0 ∧ a = s.tls s.context_key t ∧ s1 = s) ∨
      (s.tls s.context_key t = 0 ∧ e.raw_alloc ≠ 0 ∧ a = e.raw_alloc ∧
        s1 = (({ s with allocations := s.allocations + 1 } : Registry).construct
          e.raw_alloc).setSlot s.context_key t e.raw_alloc) := by
  unfold lookupOrCreate at h
  by_cases hnull : s.tls s.context_key t = 0
  · by_cases halloc : e.raw_alloc = 0
    · simp [hnull, InternalAlloc, halloc] at h
    · simp only [hnull, InternalAlloc, halloc, if_true, if_false, Except.ok.injEq,
        Prod.mk.injEq] at h
      exact Or.inr ⟨hnull, halloc, h.1.symm, h.2.symm⟩
  · simp only [hnull, if_false, Except.ok.injEq, Prod.mk.injEq] at h
    exact Or.inl ⟨hnull, h.1.symm, h.2.symm⟩

/-- The frame of a step: a call made by one thread, in a state where every
slot designates a constructed Context and no Context is shared, leaves every
slot of any other thread `B` (under every key) and every Context handed to
`B` as they were, and keeps the two state conditions.  This holds on both
paths; what a step of another thread can change on the Windows path is the
process-wide `context_key` through which `B` reads its slot. -/
theorem step_frame_of_other_thread (p : Platform) (ev : Event) (s s1 : Registry) (B : Tid)
    (hB : ev.tid ≠ B) (hlive : s.SlotsLive) (hun : s.Unshared) (hadm : ev.Admissible s)
    (h : step p ev s = .ok s1) :
    (∀ k, s1.tls k B = s.tls k B) ∧ (∀ a, s.Owns B a → s1.heap a = s.heap a) ∧
      s1.SlotsLive ∧ s1.Unshared := by
  have htls : ∀ k, s1.tls k B = s.tls k B :=
    step_tls_of_no_get p ev B s s1 (fun e heq => hB (by rw [heq])) h
  refine ⟨htls, ?_, step_SlotsLive p ev s s1 hlive h, ?_⟩
  · intro a hown
    obtain ⟨ha0, k, hk⟩ := hown
    have halive : (s.heap a).isSome = true := by
      have := hlive k B (by rw [hk]; exact ha0)
      rwa [hk] at this
    obtain ⟨u, c⟩ := ev
    cases c with
    | get e =>
      simp only [step] at h
      cases hg : GetContextForThisThread p e u s with
      | error f => rw [hg] at h; cases h
      | ok r =>
        obtain ⟨a1, s2⟩ := r
        rw [hg] at h
        simp only [Except.ok.injEq] at h
        subst h
        rw [GetContextForThisThread_eq] at hg
        cases hks : (match p with
            | .posix => pthread_once e s
            | .windows => winEnsureKey e s) with
        | error f => rw [hks] at hg; cases hg
        | ok s0 =>
          rw [hks] at hg
          have hf := keyStep_frame p e s s0 hks
          rcases lookupOrCreate_cases e u s0 a1 s2 hg with ⟨_, _, hs⟩ | ⟨_, _, _, hs⟩
          · rw [hs, hf.2.1]
          · have hfresh : s.heap e.raw_alloc = none := hadm
            have hne : a ≠ e.raw_alloc := by
              intro heq
              rw [heq, hfresh] at halive
              cases halive
            rw [hs]
            simp [Registry.setSlot, Registry.construct, hne, hf.2.1]
    | method a1 o =>
      simp only [step, callMethod, Except.ok.injEq] at h
      subst h
      have hown1 : s.Owns u a1 := hadm
      obtain ⟨_, k1, hk1⟩ := hown1
      have hne : a ≠ a1 := by
        intro heq
        have : B = u := hun k k1 B u (by rw [hk]; exact ha0) (by rw [hk, hk1, heq])
        exact hB this.symm
      simp [hne]
  · obtain ⟨u, c⟩ := ev
    cases c with
    | get e =>
      simp only [step] at h
      cases hg : GetContextForThisThread p e u s with
      | error f => rw [hg] at h; cases h
      | ok r =>
        obtain ⟨a1, s2⟩ := r
        rw [hg] at h
        simp only [Except.ok.injEq] at h
        subst h
        rw [GetContextForThisThread_eq] at hg
        cases hks : (match p with
            | .posix => pthread_once e s
            | .windows => winEnsureKey e s) with
        | error f => rw [hks] at hg; cases hg
        | ok s0 =>
          rw [hks] at hg
          have hf := keyStep_frame p e s s0 hks
          rcases lookupOrCreate_cases e u s0 a1 s2 hg with ⟨_, _, hs⟩ | ⟨_, hraw, _, hs⟩
          · rw [hs]
            intro k1 k2 t1 t2
            rw [hf.1]
            exact hun k1 k2 t1 t2
          · have hfresh : s.heap e.raw_alloc = none := hadm
            have hold : ∀ k t, s.tls k t ≠ e.raw_alloc := by
              intro k t heq
              have := hlive k t (by rw [heq]; exact hraw)
              rw [heq, hfresh] at this
              cases this
            rw [hs]
            intro k1 k2 t1 t2 hne heq
            simp only [Registry.setSlot, Registry.construct, hf.1] at hne heq
            by_cases c1 : k1 = s0.context_key ∧ t1 = u
            · by_cases c2 : k2 = s0.context_key ∧ t2 = u
              · rw [c1.2, c2.2]
              · simp only [c1, c2, and_self, if_true, if_false] at heq
                exact absurd heq.symm (hold k2 t2)
            · by_cases c2 : k2 = s0.context_key ∧ t2 = u
              · simp only [c1, c2, and_self, if_true, if_false] at heq
                exact absurd heq (hold k1 t1)
              · simp only [c1, c2, if_false] at hne heq
                exact hun k1 k2 t1 t2 hne heq
    | method a1 o =>
      simp only [step, callMethod, Except.ok.injEq] at h
      subst h
      exact hun

theorem Registry.init_Unshared : Registry.init.Unshared := by
  intro k1 k2 t1 t2 hne
  exact absurd rfl hne

/-- The frame theorem applied at program start on the Windows path: a first
call by thread 1 leaves the slots of thread 2 untouched. -/
theorem step_frame_of_other_thread_example :
    ∃ s1, step Platform.windows ⟨1, Call.get (answers 4 100)⟩ Registry.init = .ok s1 ∧
      (∀ k, s1.tls k 2 = Registry.init.tls k 2) ∧ s1.SlotsLive ∧ s1.Unshared :=
  ⟨_, rfl,
    (step_frame_of_other_thread Platform.windows ⟨1, Call.get (answers 4 100)⟩
      Registry.init _ 2 (by decide) Registry.init_SlotsLive Registry.init_Unshared rfl rfl).1,
    (step_frame_of_other_thread Platform.windows ⟨1, Call.get (answers 4 100)⟩
      Registry.init _ 2 (by decide) Registry.init_SlotsLive Registry.init_Unshared rfl rfl).2.2⟩

end Rtsan
